import Mathlib

/-!
# ollamaLearn: the streaming response loops of `cli/main.go` and `api/main.go`

A shallow embedding of the two stream-reading loops of the repository:

* `RequestChat` (`cli/main.go`, lines 61-107), the chat loop that pushes every
  fragment to a channel and returns the assembled text;
* the generate loop of `main` (`cli/main.go`, lines 211-249, and the identical
  loop of `api/main.go`, lines 87-125), which prints every fragment;
* the producer and consumer of `Translater` (`cli/main.go`, lines 110-142).

Text is modelled as `List Char`: a response body is the sequence of code points
of its UTF-8 text, so the delimiter byte `0x0A` is the character `'\n'` (the
loops look at no byte but the delimiter; everything else is the decoder's).
What the loops do to the outside world (channel sends, prints, log lines) is
recorded in explicit traces.  The library calls the loops make are modelled
separately: `ReadBytes` for `bufio.Reader.ReadBytes`, and `decodeChat`,
`decodeMessage` for `json.Decoder.Decode`; the loops take the decoder as an
argument, so every general theorem holds for any decoder whatsoever.
-/

namespace OllamaLearn

/-! ## Data model (`cli/main.go`, lines 18-46; `api/main.go`, lines 17-30) -/

/-- The Go struct `BasicResponse`; an `int` field is a 64-bit integer. -/
structure BasicResponse where
  Model : List Char := []
  CreatedAt : List Char := []
  Done : Bool := false
  TotalDuration : Int := 0
  LoadDuration : Int := 0
  PromptEvalCount : Int := 0
  PromptEvalDuration : Int := 0
  EvalCount : Int := 0
  EvalDuration : Int := 0
  deriving DecidableEq, Repr

/-- The Go struct `Message` of the generate stream: `Response` and the fields of
the embedded `BasicResponse` (`api/main.go` writes the same fields out flat). -/
structure Message extends BasicResponse where
  Response : List Char := []
  deriving DecidableEq, Repr

/-- The Go struct `ChatMessage`. -/
structure ChatMessage where
  Role : List Char := []
  Content : List Char := []
  deriving DecidableEq, Repr

/-- The Go struct `ChatResponse`: `Message` and the embedded `BasicResponse`. -/
structure ChatResponse extends BasicResponse where
  Message : ChatMessage := {}
  deriving DecidableEq, Repr

/-! ## The byte source and `bufio.Reader.ReadBytes` -/

/-- How the response body ends once its bytes are used up: with `io.EOF`, or
with another read error (a broken connection). -/
inductive SrcEnd where
  | eof
  | broken
  deriving DecidableEq, Repr

/-- The state of `bufio.NewReader(resp.Body)`: the bytes not yet handed out and
the way the source ends after them. -/
structure Reader where
  buf : List Char
  tail : SrcEnd
  deriving DecidableEq, Repr

/-- The error value `ReadBytes` returns beside its data. -/
inductive ReadErr where
  | EOF
  | other
  deriving DecidableEq, Repr

/-- The first line of a text, delimiter included, and what follows it; `none`
when the text holds no `'\n'`. -/
def splitLine : List Char → Option (List Char × List Char)
  | [] => none
  | c :: cs =>
    if c = '\n' then some ([c], cs)
    else
      match splitLine cs with
      | none => none
      | some (l, r) => some (c :: l, r)

/-- `reader.ReadBytes('\n')`: the data up to and including the first delimiter
with a nil error; when the source ends before a delimiter is found, the data
read so far together with the error that ended it. -/
def ReadBytes (rd : Reader) : List Char × Option ReadErr × Reader :=
  match splitLine rd.buf with
  | some (line, rest) => (line, none, { rd with buf := rest })
  | none =>
    (rd.buf,
     some (match rd.tail with
           | SrcEnd.eof => ReadErr.EOF
           | SrcEnd.broken => ReadErr.other),
     { rd with buf := [] })

/-! ## `encoding/json`: scanning one value -/

/-- A JSON value as `encoding/json` reads it; a number keeps its literal. -/
inductive JSON where
  | null
  | bool (b : Bool)
  | num (lit : List Char)
  | str (s : List Char)
  | arr (items : List JSON)
  | obj (members : List (List Char × JSON))
  deriving Repr

/-- The scanner's `isSpace`. -/
def isSpace (c : Char) : Bool :=
  c = ' ' || c = '\t' || c = '\r' || c = '\n'

/-- Drop leading JSON white space. -/
def skipSpace : List Char → List Char
  | [] => []
  | c :: cs => if isSpace c then skipSpace cs else c :: cs

/-- Decimal digit. -/
def isDigit (c : Char) : Bool :=
  decide ('0'.toNat ≤ c.toNat) && decide (c.toNat ≤ '9'.toNat)

/-- Value of a hexadecimal digit, as `getu4` reads it. -/
def hexVal (c : Char) : Option Nat :=
  if isDigit c then some (c.toNat - '0'.toNat)
  else if 'a'.toNat ≤ c.toNat ∧ c.toNat ≤ 'f'.toNat then some (c.toNat - 'a'.toNat + 10)
  else if 'A'.toNat ≤ c.toNat ∧ c.toNat ≤ 'F'.toNat then some (c.toNat - 'A'.toNat + 10)
  else none

/-- Four hexadecimal digits as a number (`getu4` without the leading `\u`). -/
def hex4 (a b c d : Char) : Option Nat :=
  match hexVal a, hexVal b, hexVal c, hexVal d with
  | some x, some y, some z, some w => some (((x * 16 + y) * 16 + z) * 16 + w)
  | _, _, _, _ => none

/-- The replacement character U+FFFD. -/
def replacementChar : Char := Char.ofNat 0xFFFD

/-- The double quote, U+0022. -/
def quote : Char := Char.ofNat 0x22

/-- The backslash, U+005C. -/
def backslash : Char := Char.ofNat 0x5C

/-- The character `unquote` writes for `\uXXXX` with value `r`, given the text
after it: a high surrogate followed by an escaped low surrogate is the pair's
code point and uses up the second escape; any other surrogate is U+FFFD.
Returns the character and the number of further characters used. -/
def escapedRune (r : Nat) (rest : List Char) : Char × Nat :=
  if 0xD800 ≤ r ∧ r < 0xE000 then
    match rest with
    | bs :: u :: a :: b :: c :: d :: _ =>
      match hex4 a b c d with
      | some r1 =>
        if bs = backslash ∧ u = 'u' ∧ r < 0xDC00 ∧ 0xDC00 ≤ r1 ∧ r1 < 0xE000 then
          (Char.ofNat (0x10000 + (r - 0xD800) * 0x400 + (r1 - 0xDC00)), 6)
        else (replacementChar, 0)
      | none => (replacementChar, 0)
    | _ => (replacementChar, 0)
  else (Char.ofNat r, 0)

/-- The body of a string literal after its opening quote: the unquoted text and
what follows the closing quote.  `none` for an unterminated literal, a control
character, or an escape that is not one of the JSON escapes. -/
def scanString : Nat → List Char → Option (List Char × List Char)
  | 0, _ => none
  | _ + 1, [] => none
  | n + 1, c :: cs =>
    if c = quote then some ([], cs)
    else if c = backslash then
      match cs with
      | [] => none
      | e :: es =>
        if e = 'u' then
          match es with
          | a :: b :: c1 :: d :: es1 =>
            match hex4 a b c1 d with
            | none => none
            | some r =>
              let (ch, used) := escapedRune r es1
              (scanString n (es1.drop used)).map fun (s, rest) => (ch :: s, rest)
          | _ => none
        else
          let plain : Option Char :=
            if e = quote then some quote
            else if e = backslash then some backslash
            else if e = '/' then some '/'
            else if e = 'b' then some (Char.ofNat 8)
            else if e = 'f' then some (Char.ofNat 12)
            else if e = 'n' then some '\n'
            else if e = 'r' then some '\r'
            else if e = 't' then some '\t'
            else none
          match plain with
          | none => none
          | some ch => (scanString n es).map fun (s, rest) => (ch :: s, rest)
    else if c.toNat < 0x20 then none
    else (scanString n cs).map fun (s, rest) => (c :: s, rest)

/-- Split off a leading run of decimal digits. -/
def spanDigits : List Char → List Char × List Char
  | [] => ([], [])
  | c :: cs =>
    if isDigit c then
      let (ds, rest) := spanDigits cs
      (c :: ds, rest)
    else ([], c :: cs)

/-- A number literal at the head of the text, by the scanner's states
`stateNeg`, `state0`, `state1`, `stateDot`, `stateE`: an optional minus, `0` or
a digit run not starting with `0`, an optional fraction with at least one
digit, an optional exponent with at least one digit. -/
def scanNumber (s : List Char) : Option (List Char × List Char) :=
  let (sign, s1) : List Char × List Char :=
    match s with
    | '-' :: r => (['-'], r)
    | _ => ([], s)
  let intPart : Option (List Char × List Char) :=
    match s1 with
    | [] => none
    | c :: cs =>
      if c = '0' then some (['0'], cs)
      else if isDigit c then some (spanDigits (c :: cs))
      else none
  match intPart with
  | none => none
  | some (ip, s2) =>
    let frac : Option (List Char × List Char) :=
      match s2 with
      | '.' :: r =>
        match spanDigits r with
        | ([], _) => none
        | (ds, r1) => some ('.' :: ds, r1)
      | _ => some ([], s2)
    match frac with
    | none => none
    | some (fp, s3) =>
      let expo : Option (List Char × List Char) :=
        match s3 with
        | e :: r =>
          if e = 'e' ∨ e = 'E' then
            let (sg, r1) : List Char × List Char :=
              match r with
              | x :: r2 => if x = '+' ∨ x = '-' then ([x], r2) else ([], r)
              | [] => ([], r)
            match spanDigits r1 with
            | ([], _) => none
            | (ds, r3) => some (e :: sg ++ ds, r3)
          else some ([], s3)
        | [] => some ([], s3)
      match expo with
      | none => none
      | some (ep, s4) => some (sign ++ ip ++ fp ++ ep, s4)

/-- Remove `pre` from the front of a text. -/
def dropPrefix? : List Char → List Char → Option (List Char)
  | [], s => some s
  | _ :: _, [] => none
  | p :: ps, c :: cs => if p = c then dropPrefix? ps cs else none

/-- The scanner's `maxNestingDepth`. -/
def maxNestingDepth : Nat := 10000

mutual

/-- One JSON value at the head of the text (white space before it is skipped)
and the text after it.  `depth` counts the open objects and arrays. -/
def scanValue : Nat → Nat → List Char → Option (JSON × List Char)
  | 0, _, _ => none
  | n + 1, depth, s =>
    match skipSpace s with
    | [] => none
    | c :: cs =>
      if c = '{' then
        if maxNestingDepth < depth + 1 then none
        else
          match skipSpace cs with
          | [] => none
          | d :: ds =>
            if d = '}' then some (JSON.obj [], ds)
            else
              (scanMembers n (depth + 1) (d :: ds)).map fun (ms, rest) => (JSON.obj ms, rest)
      else if c = '[' then
        if maxNestingDepth < depth + 1 then none
        else
          match skipSpace cs with
          | [] => none
          | d :: ds =>
            if d = ']' then some (JSON.arr [], ds)
            else
              (scanItems n (depth + 1) (d :: ds)).map fun (xs, rest) => (JSON.arr xs, rest)
      else if c = quote then
        (scanString (cs.length + 1) cs).map fun (str, rest) => (JSON.str str, rest)
      else if c = 't' then
        (dropPrefix? "rue".toList cs).map fun rest => (JSON.bool true, rest)
      else if c = 'f' then
        (dropPrefix? "alse".toList cs).map fun rest => (JSON.bool false, rest)
      else if c = 'n' then
        (dropPrefix? "ull".toList cs).map fun rest => (JSON.null, rest)
      else
        (scanNumber (c :: cs)).map fun (lit, rest) => (JSON.num lit, rest)

/-- The members of an object from its first key on, up to the closing brace. -/
def scanMembers : Nat → Nat → List Char → Option (List (List Char × JSON) × List Char)
  | 0, _, _ => none
  | n + 1, depth, s =>
    match skipSpace s with
    | [] => none
    | q :: cs =>
      if q = quote then
        match scanString (cs.length + 1) cs with
        | none => none
        | some (key, afterKey) =>
          match skipSpace afterKey with
          | [] => none
          | colon :: afterColon =>
            if colon = ':' then
              match scanValue n depth afterColon with
              | none => none
              | some (v, afterValue) =>
                match skipSpace afterValue with
                | [] => none
                | e :: es =>
                  if e = '}' then some ([(key, v)], es)
                  else if e = ',' then
                    (scanMembers n depth es).map fun (ms, rest) => ((key, v) :: ms, rest)
                  else none
            else none
      else none

/-- The items of an array from its first value on, up to the closing bracket. -/
def scanItems : Nat → Nat → List Char → Option (List JSON × List Char)
  | 0, _, _ => none
  | n + 1, depth, s =>
    match scanValue n depth s with
    | none => none
    | some (v, afterValue) =>
      match skipSpace afterValue with
      | [] => none
      | e :: es =>
        if e = ']' then some ([v], es)
        else if e = ',' then
          (scanItems n depth es).map fun (xs, rest) => (v :: xs, rest)
        else none

end

/-- The next JSON value of a line, as `Decoder.readValue` delimits it: what
follows the value on the line is not looked at.  Every call of the three
scanning functions uses up a character of the line at the latest in the call
it makes next, so twice the length of the line is fuel enough. -/
def readValue (line : List Char) : Option JSON :=
  (scanValue (2 * line.length + 2) 0 line).map Prod.fst

/-! ## `encoding/json`: storing a value into the structs -/

/-- `strconv.ParseInt(lit, 10, 64)` on a JSON number literal: an optional minus
and decimal digits only, within the range of a 64-bit integer. -/
def parseInt64 (lit : List Char) : Option Int :=
  let (neg, ds) : Bool × List Char :=
    match lit with
    | '-' :: r => (true, r)
    | _ => (false, lit)
  if ds = [] ∨ ds.all isDigit = false then none
  else
    let v : Nat := ds.foldl (fun a c => a * 10 + (c.toNat - '0'.toNat)) 0
    let i : Int := if neg then -(v : Int) else (v : Int)
    if -(2 : Int) ^ 63 ≤ i ∧ i < (2 : Int) ^ 63 then some i else none

/-- Store a value into a `string` field: `null` leaves the field as it is, a
string sets it, anything else is an `UnmarshalTypeError`. -/
def storeString (cur : List Char) : JSON → Option (List Char)
  | JSON.null => some cur
  | JSON.str s => some s
  | _ => none

/-- Store a value into a `bool` field. -/
def storeBool (cur : Bool) : JSON → Option Bool
  | JSON.null => some cur
  | JSON.bool b => some b
  | _ => none

/-- Store a value into an `int` field. -/
def storeInt (cur : Int) : JSON → Option Int
  | JSON.null => some cur
  | JSON.num lit => parseInt64 lit
  | _ => none

/-- The decoder's `foldRune` as far as it can reach an ASCII letter: lower case
letters fold to upper case, and so do U+017F (long s) and U+212A (Kelvin
sign); every other character outside ASCII folds to a character outside
ASCII, which no field name holds, and is left as it is. -/
def foldRune (c : Char) : Char :=
  if 'a'.toNat ≤ c.toNat ∧ c.toNat ≤ 'z'.toNat then Char.ofNat (c.toNat - 32)
  else if c.toNat = 0x17F then 'S'
  else if c.toNat = 0x212A then 'K'
  else c

/-- The decoder's `foldName`. -/
def foldName (s : List Char) : List Char := s.map foldRune

/-- The struct field a key selects: the field of that exact name, else the
field whose name matches the key without regard to case. -/
def fieldOf (names : List (List Char)) (key : List Char) : Option (List Char) :=
  match names.find? (fun f => f = key) with
  | some f => some f
  | none => names.find? (fun f => foldName f = foldName key)

/-- The JSON names of the fields of `BasicResponse`. -/
def basicFields : List (List Char) :=
  ["model".toList, "created_at".toList, "done".toList, "total_duration".toList,
   "load_duration".toList, "prompt_eval_count".toList, "prompt_eval_duration".toList,
   "eval_count".toList, "eval_duration".toList]

/-- Store a value into the field of `BasicResponse` with the given JSON name. -/
def storeBasic (b : BasicResponse) (field : List Char) (v : JSON) : Option BasicResponse :=
  if field = "model".toList then (storeString b.Model v).map fun x => { b with Model := x }
  else if field = "created_at".toList then
    (storeString b.CreatedAt v).map fun x => { b with CreatedAt := x }
  else if field = "done".toList then (storeBool b.Done v).map fun x => { b with Done := x }
  else if field = "total_duration".toList then
    (storeInt b.TotalDuration v).map fun x => { b with TotalDuration := x }
  else if field = "load_duration".toList then
    (storeInt b.LoadDuration v).map fun x => { b with LoadDuration := x }
  else if field = "prompt_eval_count".toList then
    (storeInt b.PromptEvalCount v).map fun x => { b with PromptEvalCount := x }
  else if field = "prompt_eval_duration".toList then
    (storeInt b.PromptEvalDuration v).map fun x => { b with PromptEvalDuration := x }
  else if field = "eval_count".toList then
    (storeInt b.EvalCount v).map fun x => { b with EvalCount := x }
  else if field = "eval_duration".toList then
    (storeInt b.EvalDuration v).map fun x => { b with EvalDuration := x }
  else some b

/-- Store the members of an object into a `ChatMessage`; a key that selects no
field is skipped, a value of the wrong type is an error. -/
def storeChatMessage (m : ChatMessage) : List (List Char × JSON) → Option ChatMessage
  | [] => some m
  | (key, v) :: rest =>
    match fieldOf ["role".toList, "content".toList] key with
    | none => storeChatMessage m rest
    | some f =>
      let stored : Option ChatMessage :=
        if f = "role".toList then (storeString m.Role v).map fun x => { m with Role := x }
        else (storeString m.Content v).map fun x => { m with Content := x }
      match stored with
      | none => none
      | some m1 => storeChatMessage m1 rest

/-- Store the members of an object into a `ChatResponse`. -/
def storeChatResponse (r : ChatResponse) : List (List Char × JSON) → Option ChatResponse
  | [] => some r
  | (key, v) :: rest =>
    match fieldOf ("message".toList :: basicFields) key with
    | none => storeChatResponse r rest
    | some f =>
      let stored : Option ChatResponse :=
        if f = "message".toList then
          match v with
          | JSON.null => some r
          | JSON.obj ms => (storeChatMessage r.Message ms).map fun x => { r with Message := x }
          | _ => none
        else (storeBasic r.toBasicResponse f v).map fun b => { r with toBasicResponse := b }
      match stored with
      | none => none
      | some r1 => storeChatResponse r1 rest

/-- Store the members of an object into a `Message`. -/
def storeMessage (r : Message) : List (List Char × JSON) → Option Message
  | [] => some r
  | (key, v) :: rest =>
    match fieldOf ("response".toList :: basicFields) key with
    | none => storeMessage r rest
    | some f =>
      let stored : Option Message :=
        if f = "response".toList then
          (storeString r.Response v).map fun x => { r with Response := x }
        else (storeBasic r.toBasicResponse f v).map fun b => { r with toBasicResponse := b }
      match stored with
      | none => none
      | some r1 => storeMessage r1 rest

/-- `json.NewDecoder(bytes.NewReader(line)).Decode(&response)` on a fresh
`ChatResponse`: `none` when `Decode` returns an error (no value on the line, a
syntax error, a value that is no object, a member of the wrong type), else the
struct as filled in.  The value `null` stores nothing and is no error. -/
def decodeChat (line : List Char) : Option ChatResponse :=
  match readValue line with
  | some JSON.null => some {}
  | some (JSON.obj ms) => storeChatResponse {} ms
  | _ => none

/-- `json.NewDecoder(bytes.NewReader(line)).Decode(&msg)` on a fresh `Message`. -/
def decodeMessage (line : List Char) : Option Message :=
  match readValue line with
  | some JSON.null => some {}
  | some (JSON.obj ms) => storeMessage {} ms
  | _ => none

/-! ## `RequestChat` (`cli/main.go`, lines 61-107) -/

/-- What `http.Post` hands back: an error, or a response with its status code
and body. -/
inductive PostResult where
  | failed
  | response (StatusCode : Nat) (Body : Reader)
  deriving DecidableEq, Repr

/-- The errors `RequestChat` returns.  (`json.Marshal` of a `ChatRequest`, a
struct of strings, has no error to return.) -/
inductive ChatErr where
  | request
  | status (code : Nat)
  | read
  | decode
  deriving DecidableEq, Repr

/-- What `RequestChat` does, in order, while it reads the body.  A send on the
channel is taken to complete: the receiver (the loop of `Translater`) takes
every value until the channel is closed. -/
inductive Effect where
  | read (line : List Char)
  | send (text : List Char)
  | printErr
  deriving DecidableEq, Repr

/-- The outcome of a call of `RequestChat`: the returned string and error, and
the trace of what it did: `read` for a frame `ReadBytes` handed out with a nil
error, `send` for `stream <- response.Message.Content`, `printErr` for the
`fmt.Printf("err %v\n", err)` of line 94. -/
structure ChatRun where
  text : List Char
  err : Option ChatErr
  trace : List Effect
  deriving DecidableEq, Repr

/-- The `for` loop of `RequestChat` (lines 83-104) and the `return` after it;
`result` is the local variable of that name.  The first argument bounds the
number of iterations; `none` means the bound was reached. -/
def chatLoop (decode : List Char → Option ChatResponse) :
    Nat → Reader → List Char → Option ChatRun
  | 0, _, _ => none
  | n + 1, reader, result =>
    match ReadBytes reader with
    | (_, some ReadErr.EOF, _) => some ⟨result, none, []⟩
    | (_, some ReadErr.other, _) => some ⟨[], some ChatErr.read, []⟩
    | (line, none, reader1) =>
      match decode line with
      | none => some ⟨[], some ChatErr.decode, [Effect.read line, Effect.printErr]⟩
      | some response =>
        if response.Done then
          some ⟨result ++ response.Message.Content, none,
            [Effect.read line, Effect.send response.Message.Content]⟩
        else
          (chatLoop decode n reader1 (result ++ response.Message.Content)).map fun r =>
            { r with
              trace := Effect.read line :: Effect.send response.Message.Content :: r.trace }

/-- `RequestChat` from the answer of `http.Post` on.  Every iteration of the loop
takes a line of at least one character off the body, so one iteration more
than the body has characters is bound enough (`chatLoop_wire`). -/
def RequestChat (decode : List Char → Option ChatResponse) : PostResult → Option ChatRun
  | PostResult.failed => some ⟨[], some ChatErr.request, []⟩
  | PostResult.response code body =>
    if code ≠ 200 then some ⟨[], some (ChatErr.status code), []⟩
    else chatLoop decode (body.buf.length + 1) body []

/-- The values pushed to the channel, in order. -/
def sends : List Effect → List (List Char)
  | [] => []
  | Effect.send t :: es => t :: sends es
  | _ :: es => sends es

/-- The frames read with a nil error, in order. -/
def reads : List Effect → List (List Char)
  | [] => []
  | Effect.read l :: es => l :: reads es
  | _ :: es => reads es

/-! ## The generate loop of `main` (`cli/main.go`, 211-249; `api/main.go`, 87-125) -/

/-- The ways `main` ends through `log.Fatalf`. -/
inductive Fatal where
  | request
  | status (code : Nat)
  | read
  deriving DecidableEq, Repr

/-- The outcome of `main` in generate mode: what it printed on standard output,
the frames for which it logged `Error decoding JSON` (one log line each, on
standard error), and the `log.Fatalf` that ended it, if one did. -/
structure MainRun where
  stdout : List Char
  skipped : List (List Char)
  fatal : Option Fatal
  deriving DecidableEq, Repr

/-- The `for` loop of `main`.  `summary line msg` is the text the eight
`fmt.Printf` calls under `if showSummary` print for the terminal frame. -/
def generateLoop (decode : List Char → Option Message)
    (summary : List Char → Message → List Char) (showSummary : Bool) :
    Nat → Reader → Option MainRun
  | 0, _ => none
  | n + 1, reader =>
    match ReadBytes reader with
    | (_, some ReadErr.EOF, _) => some ⟨[], [], none⟩
    | (_, some ReadErr.other, _) => some ⟨[], [], some Fatal.read⟩
    | (line, none, reader1) =>
      match decode line with
      | none =>
        (generateLoop decode summary showSummary n reader1).map fun r =>
          { r with skipped := line :: r.skipped }
      | some msg =>
        if msg.Done then
          some ⟨msg.Response ++ (if showSummary then summary line msg else []), [], none⟩
        else
          (generateLoop decode summary showSummary n reader1).map fun r =>
            { r with stdout := msg.Response ++ r.stdout }

/-- `main` in generate mode (in `cli/main.go`: with the flag `-t` off), from the
answer of `http.Post` on. -/
def main (decode : List Char → Option Message)
    (summary : List Char → Message → List Char) (showSummary responseJSON : Bool) :
    PostResult → Option MainRun
  | PostResult.failed => some ⟨[], [], some Fatal.request⟩
  | PostResult.response code body =>
    if code ≠ 200 then some ⟨[], [], some (Fatal.status code)⟩
    else if responseJSON then
      match body.tail with
      | SrcEnd.eof => some ⟨body.buf, [], none⟩
      | SrcEnd.broken => some ⟨[], [], some Fatal.read⟩
    else
      (generateLoop decode summary showSummary (body.buf.length + 1) body).map fun r =>
        { r with stdout := ">>>\n".toList ++ r.stdout }

/-! ## `Translater` (`cli/main.go`, lines 110-142) -/

/-- An operation of the producer goroutine on the channel `stream`. -/
inductive ChanOp where
  | send (text : List Char)
  | close
  deriving DecidableEq, Repr

/-- The outcome of the producer goroutine: its channel operations in order, and
the status with which it ended the process, if it did. -/
structure ProducerRun where
  ops : List ChanOp
  exit : Option Nat
  deriving DecidableEq, Repr

/-- The goroutine of `Translater` (lines 123-129).  When `RequestChat` returns an
error, `log.Fatalf` ends the process through `os.Exit(1)`, which runs no
deferred call: `close(stream)` is not run.  Otherwise the function returns and
the deferred `close(stream)` runs. -/
def Translater.producer (decode : List Char → Option ChatResponse) (post : PostResult) :
    Option ProducerRun :=
  (RequestChat decode post).map fun r =>
    match r.err with
    | some _ => ⟨(sends r.trace).map ChanOp.send, some 1⟩
    | none => ⟨(sends r.trace).map ChanOp.send ++ [ChanOp.close], none⟩

/-- The receiving loop of `Translater` (lines 131-140) against the channel
operations of the producer, which the unbuffered channel hands over one by one
in the order they are made: the text it prints, and whether it returns (it saw
the channel closed). -/
def Translater.consumer : List ChanOp → List Char × Bool
  | [] => ([], false)
  | ChanOp.close :: _ => ([], true)
  | ChanOp.send text :: ops =>
    (text ++ (Translater.consumer ops).1, (Translater.consumer ops).2)

/-! ## Frames on the wire -/

/-- The delimiter-terminated line of a frame. -/
def frameLine (f : List Char) : List Char := f ++ ['\n']

/-- The body made of the given frames, each followed by the delimiter. -/
def wire : List (List Char) → List Char
  | [] => []
  | f :: fs => frameLine f ++ wire fs

/-- The events of a stream up to and including the first one that satisfies
`done`. -/
def uptoDone {α : Type} (done : α → Bool) : List α → List α
  | [] => []
  | x :: xs => if done x then [x] else x :: uptoDone done xs

/-- The chat events the frames decode to, in order; a frame that does not
decode gives none. -/
def chatEvents (decode : List Char → Option ChatResponse) (fs : List (List Char)) :
    List ChatResponse :=
  fs.filterMap fun f => decode (frameLine f)

/-- The generate events the frames decode to, in order. -/
def messageEvents (decode : List Char → Option Message) (fs : List (List Char)) :
    List Message :=
  fs.filterMap fun f => decode (frameLine f)

/-- The `message.content` fragments of chat events. -/
def fragments (evs : List ChatResponse) : List (List Char) :=
  evs.map fun ev => ev.Message.Content

/-- The `response` fragments of generate events. -/
def responses (evs : List Message) : List (List Char) :=
  evs.map fun ev => ev.Response

/-- Whether a frame decodes to a generate event with `done=true`. -/
def isTerminal (decode : List Char → Option Message) (f : List Char) : Bool :=
  match decode (frameLine f) with
  | some msg => msg.Done
  | none => false

/-- The frames among `fs` that do not decode as a generate event. -/
def malformed (decode : List Char → Option Message) (fs : List (List Char)) :
    List (List Char) :=
  fs.filter fun f => (decode (frameLine f)).isNone

/-- A trace in which every push directly follows the read of the frame it comes
from and carries that frame's `message.content`, before any further read; the
one read without a push is that of a frame that does not decode, which ends
the trace with the `printErr` of line 94. -/
def pairedTrace (decode : List Char → Option ChatResponse) : List Effect → Bool
  | [] => true
  | Effect.read l :: Effect.send t :: rest =>
    (match decode l with
     | some ev => decide (ev.Message.Content = t)
     | none => false) && pairedTrace decode rest
  | Effect.read l :: Effect.printErr :: rest =>
    (decode l).isNone && rest.isEmpty
  | _ => false

/-! ## The loops read off a list of frames

The two loops as recursions over the frames of the body instead of over the
reader.  `chatLoop_wire` and `generateLoop_wire` show that the loops compute
exactly these on a body made of the frames and an unterminated rest; the
theorems about the loops are proved through them. -/

/-- The run of the loop of `RequestChat` over the frames `fs` of a body that
ends as `e` says, started with `result = acc`. -/
def chatOver (decode : List Char → Option ChatResponse) (e : SrcEnd) :
    List (List Char) → List Char → ChatRun
  | [], acc =>
    match e with
    | SrcEnd.eof => ⟨acc, none, []⟩
    | SrcEnd.broken => ⟨[], some ChatErr.read, []⟩
  | f :: fs, acc =>
    match decode (frameLine f) with
    | none => ⟨[], some ChatErr.decode, [Effect.read (frameLine f), Effect.printErr]⟩
    | some response =>
      if response.Done then
        ⟨acc ++ response.Message.Content, none,
          [Effect.read (frameLine f), Effect.send response.Message.Content]⟩
      else
        let r := chatOver decode e fs (acc ++ response.Message.Content)
        { r with
          trace := Effect.read (frameLine f) :: Effect.send response.Message.Content :: r.trace }

/-- The run of the generate loop of `main` over the frames `fs` of a body that
ends as `e` says. -/
def generateOver (decode : List Char → Option Message)
    (summary : List Char → Message → List Char) (showSummary : Bool) (e : SrcEnd) :
    List (List Char) → MainRun
  | [] =>
    match e with
    | SrcEnd.eof => ⟨[], [], none⟩
    | SrcEnd.broken => ⟨[], [], some Fatal.read⟩
  | f :: fs =>
    match decode (frameLine f) with
    | none =>
      let r := generateOver decode summary showSummary e fs
      { r with skipped := frameLine f :: r.skipped }
    | some msg =>
      if msg.Done then
        ⟨msg.Response ++ (if showSummary then summary (frameLine f) msg else []), [], none⟩
      else
        let r := generateOver decode summary showSummary e fs
        { r with stdout := msg.Response ++ r.stdout }

/-! ## Sample frames -/

/-- The chat frame `{"message":{"role":"assistant","content":"Bon"},"done":false}`. -/
def frameBon : List Char :=
  "\x7b\"message\":\x7b\"role\":\"assistant\",\"content\":\"Bon\"\x7d,\"done\":false\x7d".toList

/-- The chat frame `{"message":{"role":"assistant","content":"jour"},"done":false}`. -/
def frameJour : List Char :=
  "\x7b\"message\":\x7b\"role\":\"assistant\",\"content\":\"jour\"\x7d,\"done\":false\x7d".toList

/-- The terminal chat frame
`{"message":{"role":"assistant","content":""},"done":true,"total_duration":1500000000}`. -/
def frameChatDone : List Char :=
  ("\x7b\"message\":\x7b\"role\":\"assistant\",\"content\":\"\"\x7d,\"done\":true," ++
    "\"total_duration\":1500000000\x7d").toList

/-- The terminal chat frame `{"message":{"role":"assistant","content":"!"},"done":true}`,
which carries a fragment. -/
def frameChatBang : List Char :=
  "\x7b\"message\":\x7b\"role\":\"assistant\",\"content\":\"!\"\x7d,\"done\":true\x7d".toList

/-- The generate frame `{"response":"Hel","done":false}`. -/
def frameHel : List Char :=
  "\x7b\"response\":\"Hel\",\"done\":false\x7d".toList

/-- The terminal generate frame
`{"response":"lo","done":true,"total_duration":1500000000}`. -/
def frameLo : List Char :=
  "\x7b\"response\":\"lo\",\"done\":true,\"total_duration\":1500000000\x7d".toList

/-- A frame that is no JSON: `oops`. -/
def frameBad : List Char := "oops".toList

/-- Another frame that is no JSON: an object that is cut off, `{"response":"x`. -/
def frameCut : List Char := "\x7b\"response\":\"x".toList

/-- A summary text for the sample runs; the runs below pass the flag off. -/
def noSummary : List Char → Message → List Char := fun _ _ => []

/-- A response with status 200 whose body is the given text and ends with `io.EOF`. -/
def ok200 (body : List Char) : PostResult :=
  PostResult.response 200 ⟨body, SrcEnd.eof⟩

/-! # Theorems -/

set_option maxRecDepth 1000000

/-! ## Lines and frames -/

theorem splitLine_frame (f rest : List Char) (h : '\n' ∉ f) :
    splitLine (f ++ '\n' :: rest) = some (f ++ ['\n'], rest) := by
  induction f with
  | nil => simp [splitLine]
  | cons c cs ih =>
    have hc : c ≠ '\n' := fun e => h (by simp [e])
    have hcs : '\n' ∉ cs := fun e => h (List.mem_cons_of_mem _ e)
    simp [splitLine, hc, ih hcs]

theorem splitLine_none (s : List Char) (h : '\n' ∉ s) : splitLine s = none := by
  induction s with
  | nil => simp [splitLine]
  | cons c cs ih =>
    have hc : c ≠ '\n' := fun e => h (by simp [e])
    have hcs : '\n' ∉ cs := fun e => h (List.mem_cons_of_mem _ e)
    simp [splitLine, hc, ih hcs]

theorem splitLine_wire (f : List Char) (rest : List Char) (h : '\n' ∉ f) :
    splitLine (frameLine f ++ rest) = some (frameLine f, rest) := by
  have := splitLine_frame f rest h
  simpa [frameLine] using this

theorem wire_append (fs gs : List (List Char)) : wire (fs ++ gs) = wire fs ++ wire gs := by
  induction fs with
  | nil => rfl
  | cons f fs ih => simp [wire, ih]

theorem wire_eq_flatten (fs : List (List Char)) : wire fs = (fs.map frameLine).flatten := by
  induction fs with
  | nil => rfl
  | cons f fs ih => simp [wire, ih]

theorem length_wire_lt (f : List Char) (rest : List Char) :
    rest.length < (frameLine f ++ rest).length := by
  simp [frameLine]
  omega

/-- Every text is a run of delimiter-terminated frames followed by a rest that
holds no delimiter. -/
theorem exists_frames (b : List Char) :
    ∃ fs tail, (∀ f ∈ fs, '\n' ∉ f) ∧ '\n' ∉ tail ∧ b = wire fs ++ tail := by
  induction b with
  | nil => exact ⟨[], [], by simp, by simp, rfl⟩
  | cons c cs ih =>
    obtain ⟨fs, tail, hfs, htail, hb⟩ := ih
    by_cases hc : c = '\n'
    · refine ⟨[] :: fs, tail, ?_, htail, ?_⟩
      · intro f hf
        rcases List.mem_cons.1 hf with h | h
        · simp [h]
        · exact hfs f h
      · simp [wire, frameLine, hc, hb]
    · cases fs with
      | nil =>
        refine ⟨[], c :: tail, by simp, ?_, by simp [wire, hb]⟩
        simp only [List.mem_cons, not_or]
        exact ⟨fun e => hc e.symm, htail⟩
      | cons f fs =>
        refine ⟨(c :: f) :: fs, tail, ?_, htail, ?_⟩
        · intro g hg
          rcases List.mem_cons.1 hg with h | h
          · subst h
            simp only [List.mem_cons, not_or]
            exact ⟨fun e => hc e.symm, hfs f (List.mem_cons_self _ _)⟩
          · exact hfs g (List.mem_cons_of_mem _ h)
        · simp [wire, frameLine, hb]

/-! ## The loops compute the runs over the frames -/

theorem chatLoop_step_end (decode : List Char → Option ChatResponse) (n : Nat) (rd : Reader)
    (acc : List Char) (h : splitLine rd.buf = none) :
    chatLoop decode (n + 1) rd acc =
      some (match rd.tail with
            | SrcEnd.eof => ⟨acc, none, []⟩
            | SrcEnd.broken => ⟨[], some ChatErr.read, []⟩) := by
  cases ht : rd.tail <;> simp [chatLoop, ReadBytes, h, ht]

theorem chatLoop_step_line (decode : List Char → Option ChatResponse) (n : Nat) (rd : Reader)
    (acc l r : List Char) (h : splitLine rd.buf = some (l, r)) :
    chatLoop decode (n + 1) rd acc =
      match decode l with
      | none => some ⟨[], some ChatErr.decode, [Effect.read l, Effect.printErr]⟩
      | some response =>
        if response.Done then
          some ⟨acc ++ response.Message.Content, none,
            [Effect.read l, Effect.send response.Message.Content]⟩
        else
          (chatLoop decode n ⟨r, rd.tail⟩ (acc ++ response.Message.Content)).map fun x =>
            { x with
              trace := Effect.read l :: Effect.send response.Message.Content :: x.trace } := by
  simp [chatLoop, ReadBytes, h]

/-- On a body made of the frames `fs` and a rest without delimiter, the loop of
`RequestChat` returns, within any bound above the length of the body, the run
over the frames. -/
theorem chatLoop_wire (decode : List Char → Option ChatResponse) (e : SrcEnd)
    (fs : List (List Char)) (tail : List Char) (hfs : ∀ f ∈ fs, '\n' ∉ f)
    (htail : '\n' ∉ tail) (n : Nat) (acc : List Char)
    (hn : (wire fs ++ tail).length < n) :
    chatLoop decode n ⟨wire fs ++ tail, e⟩ acc = some (chatOver decode e fs acc) := by
  induction fs generalizing n acc with
  | nil =>
    cases n with
    | zero => omega
    | succ n =>
      rw [chatLoop_step_end _ _ _ _ (by simpa [wire] using splitLine_none tail htail)]
      cases e <;> rfl
  | cons f fs ih =>
    cases n with
    | zero => omega
    | succ n =>
      have hf : '\n' ∉ f := hfs f (List.mem_cons_self _ _)
      have hrest : ∀ g ∈ fs, '\n' ∉ g := fun g hg => hfs g (List.mem_cons_of_mem _ hg)
      have hsplit : splitLine (wire (f :: fs) ++ tail) = some (frameLine f, wire fs ++ tail) := by
        simpa [wire, List.append_assoc] using splitLine_wire f (wire fs ++ tail) hf
      have hlen : (wire fs ++ tail).length < n := by
        have := length_wire_lt f (wire fs ++ tail)
        simp only [wire, List.append_assoc] at hn
        omega
      rw [chatLoop_step_line decode n ⟨wire (f :: fs) ++ tail, e⟩ acc _ _ hsplit]
      simp only [chatOver]
      cases decode (frameLine f) with
      | none => rfl
      | some ev =>
        by_cases hd : ev.Done
        · simp [hd]
        · simp [hd, ih hrest n _ hlen]

theorem RequestChat_wire (decode : List Char → Option ChatResponse) (e : SrcEnd)
    (fs : List (List Char)) (tail : List Char) (hfs : ∀ f ∈ fs, '\n' ∉ f)
    (htail : '\n' ∉ tail) :
    RequestChat decode (PostResult.response 200 ⟨wire fs ++ tail, e⟩) =
      some (chatOver decode e fs []) := by
  simp only [RequestChat, ne_eq, not_true_eq_false, if_false]
  exact chatLoop_wire decode e fs tail hfs htail _ [] (Nat.lt_succ_self _)

theorem generateLoop_step_end (decode : List Char → Option Message)
    (summary : List Char → Message → List Char) (flag : Bool) (n : Nat) (rd : Reader)
    (h : splitLine rd.buf = none) :
    generateLoop decode summary flag (n + 1) rd =
      some (match rd.tail with
            | SrcEnd.eof => ⟨[], [], none⟩
            | SrcEnd.broken => ⟨[], [], some Fatal.read⟩) := by
  cases ht : rd.tail <;> simp [generateLoop, ReadBytes, h, ht]

theorem generateLoop_step_line (decode : List Char → Option Message)
    (summary : List Char → Message → List Char) (flag : Bool) (n : Nat) (rd : Reader)
    (l r : List Char) (h : splitLine rd.buf = some (l, r)) :
    generateLoop decode summary flag (n + 1) rd =
      match decode l with
      | none =>
        (generateLoop decode summary flag n ⟨r, rd.tail⟩).map fun x =>
          { x with skipped := l :: x.skipped }
      | some msg =>
        if msg.Done then
          some ⟨msg.Response ++ (if flag then summary l msg else []), [], none⟩
        else
          (generateLoop decode summary flag n ⟨r, rd.tail⟩).map fun x =>
            { x with stdout := msg.Response ++ x.stdout } := by
  simp [generateLoop, ReadBytes, h]

/-- On a body made of the frames `fs` and a rest without delimiter, the generate
loop returns, within any bound above the length of the body, the run over the
frames. -/
theorem generateLoop_wire (decode : List Char → Option Message)
    (summary : List Char → Message → List Char) (flag : Bool) (e : SrcEnd)
    (fs : List (List Char)) (tail : List Char) (hfs : ∀ f ∈ fs, '\n' ∉ f)
    (htail : '\n' ∉ tail) (n : Nat) (hn : (wire fs ++ tail).length < n) :
    generateLoop decode summary flag n ⟨wire fs ++ tail, e⟩ =
      some (generateOver decode summary flag e fs) := by
  induction fs generalizing n with
  | nil =>
    cases n with
    | zero => omega
    | succ n =>
      rw [generateLoop_step_end _ _ _ _ _ (by simpa [wire] using splitLine_none tail htail)]
      cases e <;> rfl
  | cons f fs ih =>
    cases n with
    | zero => omega
    | succ n =>
      have hf : '\n' ∉ f := hfs f (List.mem_cons_self _ _)
      have hrest : ∀ g ∈ fs, '\n' ∉ g := fun g hg => hfs g (List.mem_cons_of_mem _ hg)
      have hsplit : splitLine (wire (f :: fs) ++ tail) = some (frameLine f, wire fs ++ tail) := by
        simpa [wire, List.append_assoc] using splitLine_wire f (wire fs ++ tail) hf
      have hlen : (wire fs ++ tail).length < n := by
        have := length_wire_lt f (wire fs ++ tail)
        simp only [wire, List.append_assoc] at hn
        omega
      rw [generateLoop_step_line decode summary flag n ⟨wire (f :: fs) ++ tail, e⟩ _ _ hsplit]
      simp only [generateOver]
      cases decode (frameLine f) with
      | none => simp [ih hrest n hlen]
      | some ev =>
        by_cases hd : ev.Done
        · simp [hd]
        · simp [hd, ih hrest n hlen]

theorem main_wire (decode : List Char → Option Message)
    (summary : List Char → Message → List Char) (flag : Bool) (e : SrcEnd)
    (fs : List (List Char)) (tail : List Char) (hfs : ∀ f ∈ fs, '\n' ∉ f)
    (htail : '\n' ∉ tail) :
    main decode summary flag false (PostResult.response 200 ⟨wire fs ++ tail, e⟩) =
      some { generateOver decode summary flag e fs with
             stdout := ">>>\n".toList ++ (generateOver decode summary flag e fs).stdout } := by
  simp only [main, ne_eq, not_true_eq_false, if_false]
  rw [generateLoop_wire decode summary flag e fs tail hfs htail _ (Nat.lt_succ_self _)]
  rfl

/-! ## Runs of the chat loop over frames -/

theorem uptoDone_all_false {α : Type} (done : α → Bool) (xs : List α)
    (h : ∀ x ∈ xs, done x = false) : uptoDone done xs = xs := by
  induction xs with
  | nil => rfl
  | cons x xs ih =>
    have hx := h x (List.mem_cons_self _ _)
    simp [uptoDone, hx, ih fun y hy => h y (List.mem_cons_of_mem _ hy)]

theorem uptoDone_append_last {α : Type} (done : α → Bool) (xs : List α) (x : α)
    (h : ∀ y ∈ xs, done y = false) : uptoDone done (xs ++ [x]) = xs ++ [x] := by
  induction xs with
  | nil => by_cases hx : done x <;> simp [uptoDone, hx]
  | cons y ys ih =>
    have hy := h y (List.mem_cons_self _ _)
    simp [uptoDone, hy, ih fun z hz => h z (List.mem_cons_of_mem _ hz)]

theorem chatOver_done (decode : List Char → Option ChatResponse) (e : SrcEnd)
    (fs : List (List Char)) (acc : List Char)
    (hdec : ∀ f ∈ fs, (decode (frameLine f)).isSome = true)
    (hdone : ∃ f ∈ fs, (decode (frameLine f)).map (fun ev => ev.Done) = some true) :
    (chatOver decode e fs acc).err = none ∧
    (chatOver decode e fs acc).text =
      acc ++ (fragments (uptoDone (fun ev => ev.Done) (chatEvents decode fs))).flatten ∧
    sends (chatOver decode e fs acc).trace =
      fragments (uptoDone (fun ev => ev.Done) (chatEvents decode fs)) ∧
    reads (chatOver decode e fs acc).trace =
      (fs.take (uptoDone (fun ev => ev.Done) (chatEvents decode fs)).length).map frameLine := by
  induction fs generalizing acc with
  | nil => simp at hdone
  | cons f fs ih =>
    have hf := hdec f (List.mem_cons_self _ _)
    obtain ⟨ev, hev⟩ := Option.isSome_iff_exists.1 hf
    by_cases hd : ev.Done = true
    · simp [chatOver, chatEvents, hev, hd, uptoDone, fragments, sends, reads]
    · have hrest : ∃ g ∈ fs, (decode (frameLine g)).map (fun ev => ev.Done) = some true := by
        obtain ⟨g, hg, hgd⟩ := hdone
        rcases List.mem_cons.1 hg with h | h
        · subst h
          simp [hev, hd] at hgd
        · exact ⟨g, h, hgd⟩
      obtain ⟨h1, h2, h3, h4⟩ :=
        ih (acc ++ ev.Message.Content) (fun g hg => hdec g (List.mem_cons_of_mem _ hg)) hrest
      simp only [chatEvents] at h2 h3 h4
      simp [chatOver, chatEvents, hev, hd, uptoDone, fragments, sends, reads, h1, h2, h3, h4]

/-- C1: on a body made of newline-terminated frames that all decode, one of
them with `done=true`, `RequestChat` returns a nil error and the concatenation
of `message.content` of the frames up to and including the first `done=true`
frame; the frames after it are not read; when no frame before the last has
`done=true`, the text is the concatenation of all fragments. -/
theorem RequestChat_text_upto_done (decode : List Char → Option ChatResponse)
    (fs : List (List Char)) (e : SrcEnd)
    (hfs : ∀ f ∈ fs, '\n' ∉ f)
    (hdec : ∀ f ∈ fs, (decode (frameLine f)).isSome = true)
    (hdone : ∃ f ∈ fs, (decode (frameLine f)).map (fun ev => ev.Done) = some true) :
    ∃ r, RequestChat decode (PostResult.response 200 ⟨wire fs, e⟩) = some r ∧
      r.err = none ∧
      r.text = (fragments (uptoDone (fun ev => ev.Done) (chatEvents decode fs))).flatten ∧
      sends r.trace = fragments (uptoDone (fun ev => ev.Done) (chatEvents decode fs)) ∧
      reads r.trace =
        (fs.take (uptoDone (fun ev => ev.Done) (chatEvents decode fs)).length).map frameLine ∧
      (∀ init last, fs = init ++ [last] →
        (∀ f ∈ init, (decode (frameLine f)).map (fun ev => ev.Done) = some false) →
        r.text = (fragments (chatEvents decode fs)).flatten) := by
  have hrun := RequestChat_wire decode e fs [] hfs (by simp)
  rw [List.append_nil] at hrun
  obtain ⟨h1, h2, h3, h4⟩ := chatOver_done decode e fs [] hdec hdone
  refine ⟨_, hrun, h1, by simpa using h2, h3, h4, ?_⟩
  intro init last hfs' hinit
  rw [h2, List.nil_append]
  have hsplit : chatEvents decode fs =
      chatEvents decode init ++ chatEvents decode [last] := by
    simp [chatEvents, hfs']
  have hlast : ∃ ev, chatEvents decode [last] = [ev] := by
    have := hdec last (by simp [hfs'])
    obtain ⟨ev, hev⟩ := Option.isSome_iff_exists.1 this
    exact ⟨ev, by simp [chatEvents, hev]⟩
  obtain ⟨ev, hev⟩ := hlast
  have hnone : ∀ x ∈ chatEvents decode init, (fun ev : ChatResponse => ev.Done) x = false := by
    intro x hx
    simp only [chatEvents, List.mem_filterMap] at hx
    obtain ⟨f, hf, hfx⟩ := hx
    have := hinit f hf
    simp [hfx] at this
    simpa using this
  rw [hsplit, hev, uptoDone_append_last _ _ _ hnone]

/-- Witness of C1: the frames with the fragments `Bon`, `jour` and the terminal
frame with empty content give the text `Bonjour`. -/
theorem RequestChat_text_upto_done_witness :
    ∃ r, RequestChat decodeChat (ok200 (wire [frameBon, frameJour, frameChatDone])) = some r ∧
      r.err = none ∧ r.text = "Bonjour".toList ∧
      sends r.trace = ["Bon".toList, "jour".toList, []] := by
  obtain ⟨r, h1, h2, h3, h4, _⟩ :=
    RequestChat_text_upto_done decodeChat [frameBon, frameJour, frameChatDone] SrcEnd.eof
      (by decide!) (by decide!) (by decide!)
  exact ⟨r, h1, h2, h3.trans (by decide!), h4.trans (by decide!)⟩

theorem chatOver_paired (decode : List Char → Option ChatResponse) (e : SrcEnd)
    (fs : List (List Char)) (acc : List Char) :
    pairedTrace decode (chatOver decode e fs acc).trace = true ∧
    sends (chatOver decode e fs acc).trace =
      fragments ((reads (chatOver decode e fs acc).trace).filterMap decode) ∧
    ∃ k, reads (chatOver decode e fs acc).trace = (fs.take k).map frameLine := by
  induction fs generalizing acc with
  | nil => cases e <;> exact ⟨rfl, rfl, 0, rfl⟩
  | cons f fs ih =>
    cases hev : decode (frameLine f) with
    | none =>
      refine ⟨by simp [chatOver, hev, pairedTrace], by simp [chatOver, hev, sends, reads, fragments],
        1, by simp [chatOver, hev, reads]⟩
    | some ev =>
      by_cases hd : ev.Done = true
      · refine ⟨by simp [chatOver, hev, hd, pairedTrace],
          by simp [chatOver, hev, hd, sends, reads, fragments], 1,
          by simp [chatOver, hev, hd, reads]⟩
      · obtain ⟨h1, h2, k, h3⟩ := ih (acc ++ ev.Message.Content)
        refine ⟨by simp [chatOver, hev, hd, pairedTrace, h1], ?_, k + 1, ?_⟩
        · simp [chatOver, hev, hd, sends, reads, h2, fragments]
        · simp [chatOver, hev, hd, reads, h3]

/-- C2: for every chat response body, the pushes of `RequestChat` are the
`message.content` of the frames it decoded, one push per decoded frame and in
the order of the frames; each push directly follows the read of its frame,
before the next read; and the frames read are the first frames of the body. -/
theorem RequestChat_pushes_in_order (decode : List Char → Option ChatResponse)
    (body : List Char) (e : SrcEnd) :
    ∃ r, RequestChat decode (PostResult.response 200 ⟨body, e⟩) = some r ∧
      pairedTrace decode r.trace = true ∧
      sends r.trace = fragments ((reads r.trace).filterMap decode) ∧
      (∀ l ∈ reads r.trace, ∃ f, '\n' ∉ f ∧ l = frameLine f) ∧
      ∃ rest, body = (reads r.trace).flatten ++ rest := by
  obtain ⟨fs, tail, hfs, htail, hb⟩ := exists_frames body
  obtain ⟨h1, h2, k, h3⟩ := chatOver_paired decode e fs []
  refine ⟨_, by rw [hb]; exact RequestChat_wire decode e fs tail hfs htail, h1, h2, ?_, ?_⟩
  · intro l hl
    rw [h3, List.mem_map] at hl
    obtain ⟨f, hf, hfl⟩ := hl
    exact ⟨f, hfs f (List.mem_of_mem_take hf), hfl.symm⟩
  · refine ⟨wire (fs.drop k) ++ tail, ?_⟩
    rw [h3, ← wire_eq_flatten, ← List.append_assoc, ← wire_append, List.take_append_drop, hb]

theorem chatOver_not_done (decode : List Char → Option ChatResponse) (e : SrcEnd)
    (fs more : List (List Char)) (acc : List Char)
    (hev : ∀ f ∈ fs, (decode (frameLine f)).map (fun ev => ev.Done) = some false) :
    (chatOver decode e (fs ++ more) acc).text =
      (chatOver decode e more (acc ++ (fragments (chatEvents decode fs)).flatten)).text ∧
    (chatOver decode e (fs ++ more) acc).err =
      (chatOver decode e more (acc ++ (fragments (chatEvents decode fs)).flatten)).err ∧
    sends (chatOver decode e (fs ++ more) acc).trace =
      fragments (chatEvents decode fs) ++
        sends (chatOver decode e more (acc ++ (fragments (chatEvents decode fs)).flatten)).trace ∧
    reads (chatOver decode e (fs ++ more) acc).trace =
      fs.map frameLine ++
        reads (chatOver decode e more (acc ++ (fragments (chatEvents decode fs)).flatten)).trace := by
  induction fs generalizing acc with
  | nil => simp [chatEvents, fragments]
  | cons f fs ih =>
    have hf := hev f (List.mem_cons_self _ _)
    cases hdf : decode (frameLine f) with
    | none => simp [hdf] at hf
    | some ev =>
      have hd : ev.Done = false := by simpa [hdf] using hf
      obtain ⟨h1, h2, h3, h4⟩ :=
        ih (acc ++ ev.Message.Content) (fun g hg => hev g (List.mem_cons_of_mem _ hg))
      simp only [chatEvents] at h1 h2 h3 h4
      simp [chatOver, chatEvents, hdf, hd, fragments, sends, reads, h1, h2, h3, h4]

/-- Counterexample to C3: on the body with zero frames, and on a body whose two
frames decode with `done=false`, `RequestChat` returns a nil error. -/
theorem RequestChat_eof_is_success :
    RequestChat decodeChat (ok200 []) = some ⟨[], none, []⟩ ∧
    (RequestChat decodeChat (ok200 (wire [frameBon, frameJour]))).map
      (fun r => (r.text, r.err)) = some ("Bonjour".toList, none) := by
  decide!

/-- C3, amended: when the body reaches end-of-input before any `done=true`
frame, all of its newline-terminated frames decoding, `RequestChat` returns a
nil error and the concatenation of all their fragments (the empty text for zero
frames), having pushed every fragment. -/
theorem RequestChat_eof_without_done (decode : List Char → Option ChatResponse)
    (fs : List (List Char)) (tail : List Char)
    (hfs : ∀ f ∈ fs, '\n' ∉ f) (htail : '\n' ∉ tail)
    (hev : ∀ f ∈ fs, (decode (frameLine f)).map (fun ev => ev.Done) = some false) :
    ∃ r, RequestChat decode (PostResult.response 200 ⟨wire fs ++ tail, SrcEnd.eof⟩) = some r ∧
      r.err = none ∧
      r.text = (fragments (chatEvents decode fs)).flatten ∧
      sends r.trace = fragments (chatEvents decode fs) ∧
      reads r.trace = fs.map frameLine := by
  obtain ⟨h1, h2, h3, h4⟩ := chatOver_not_done decode SrcEnd.eof fs [] [] hev
  rw [List.append_nil] at h1 h2 h3 h4
  refine ⟨_, RequestChat_wire decode SrcEnd.eof fs tail hfs htail, ?_, ?_, ?_, ?_⟩
  · rw [h2]; rfl
  · rw [h1]; simp [chatOver]
  · rw [h3]; simp [chatOver, sends]
  · rw [h4]; simp [chatOver, reads]

/-- Witness of C3, amended: two frames with `done=false`, then end-of-input. -/
theorem RequestChat_eof_without_done_witness :
    ∃ r, RequestChat decodeChat (ok200 (wire [frameBon, frameJour])) = some r ∧
      r.err = none ∧ r.text = "Bonjour".toList := by
  obtain ⟨r, h1, h2, h3, _⟩ :=
    RequestChat_eof_without_done decodeChat [frameBon, frameJour] []
      (by decide!) (by decide!) (by decide!)
  exact ⟨r, by simpa using h1, h2, h3.trans (by decide!)⟩

theorem chatOver_malformed (decode : List Char → Option ChatResponse) (e : SrcEnd)
    (fs more : List (List Char)) (bad : List Char)
    (hev : ∀ f ∈ fs, (decode (frameLine f)).map (fun ev => ev.Done) = some false)
    (hmal : decode (frameLine bad) = none) :
    (chatOver decode e (fs ++ bad :: more) []).err = some ChatErr.decode ∧
    (chatOver decode e (fs ++ bad :: more) []).text = [] ∧
    sends (chatOver decode e (fs ++ bad :: more) []).trace = fragments (chatEvents decode fs) ∧
    reads (chatOver decode e (fs ++ bad :: more) []).trace = (fs ++ [bad]).map frameLine := by
  obtain ⟨h1, h2, h3, h4⟩ := chatOver_not_done decode e fs (bad :: more) [] hev
  refine ⟨?_, ?_, ?_, ?_⟩
  · rw [h2]; simp [chatOver, hmal]
  · rw [h1]; simp [chatOver, hmal]
  · rw [h3]; simp [chatOver, hmal, sends]
  · rw [h4]; simp [chatOver, hmal, reads]

theorem RequestChat_malformed (decode : List Char → Option ChatResponse)
    (fs : List (List Char)) (bad rest : List Char) (e : SrcEnd)
    (hfs : ∀ f ∈ fs, '\n' ∉ f) (hbad : '\n' ∉ bad)
    (hev : ∀ f ∈ fs, (decode (frameLine f)).map (fun ev => ev.Done) = some false)
    (hmal : decode (frameLine bad) = none) :
    ∃ r, RequestChat decode
        (PostResult.response 200 ⟨wire fs ++ frameLine bad ++ rest, e⟩) = some r ∧
      r.err = some ChatErr.decode ∧ r.text = [] ∧
      sends r.trace = fragments (chatEvents decode fs) ∧
      reads r.trace = (fs ++ [bad]).map frameLine := by
  obtain ⟨gs, tail, hgs, htail, hrest⟩ := exists_frames rest
  have hall : ∀ f ∈ fs ++ bad :: gs, '\n' ∉ f := by
    intro f hf
    rcases List.mem_append.1 hf with h | h
    · exact hfs f h
    · rcases List.mem_cons.1 h with h | h
      · exact h ▸ hbad
      · exact hgs f h
  have hbody : wire fs ++ frameLine bad ++ rest = wire (fs ++ bad :: gs) ++ tail := by
    simp [wire_append, wire, hrest, List.append_assoc]
  obtain ⟨h1, h2, h3, h4⟩ := chatOver_malformed decode e fs gs bad hev hmal
  exact ⟨_, by rw [hbody]; exact RequestChat_wire decode e _ tail hall htail, h1, h2, h3, h4⟩

/-- Counterexample to C4: with the one malformed frame `oops` before the valid
terminal frame, `RequestChat` returns an error and the empty text; without that
frame it returns `Bon!` and a nil error. -/
theorem RequestChat_one_malformed_fails :
    (RequestChat decodeChat (ok200 (wire [frameBon, frameBad, frameChatBang]))).map
      (fun r => (r.text, r.err, sends r.trace)) =
        some ([], some ChatErr.decode, ["Bon".toList]) ∧
    (RequestChat decodeChat (ok200 (wire [frameBon, frameChatBang]))).map
      (fun r => (r.text, r.err, sends r.trace)) =
        some ("Bon!".toList, none, ["Bon".toList, "!".toList]) := by
  decide!

/-- C4, amended: when a malformed frame comes before any `done=true` frame, the
frames before it decoding, `RequestChat` fails at it: it returns the empty text
and a decode error, its pushes are the fragments of the frames before the
malformed one, and it reads no frame after it, whatever follows. -/
theorem RequestChat_fails_at_malformed (decode : List Char → Option ChatResponse)
    (fs : List (List Char)) (bad rest : List Char) (e : SrcEnd)
    (hfs : ∀ f ∈ fs, '\n' ∉ f) (hbad : '\n' ∉ bad)
    (hev : ∀ f ∈ fs, (decode (frameLine f)).map (fun ev => ev.Done) = some false)
    (hmal : decode (frameLine bad) = none) :
    ∃ r, RequestChat decode
        (PostResult.response 200 ⟨wire fs ++ frameLine bad ++ rest, e⟩) = some r ∧
      r.err = some ChatErr.decode ∧ r.text = [] ∧
      sends r.trace = fragments (chatEvents decode fs) ∧
      reads r.trace = (fs ++ [bad]).map frameLine :=
  RequestChat_malformed decode fs bad rest e hfs hbad hev hmal

/-- Witness of C4, amended: the frame `oops` between a valid frame and the
terminal frame. -/
theorem RequestChat_fails_at_malformed_witness :
    ∃ r, RequestChat decodeChat
        (ok200 (wire [frameBon] ++ frameLine frameBad ++ wire [frameChatBang])) = some r ∧
      r.err = some ChatErr.decode ∧ r.text = [] ∧ sends r.trace = ["Bon".toList] := by
  obtain ⟨r, h1, h2, h3, h4, _⟩ :=
    RequestChat_fails_at_malformed decodeChat [frameBon] frameBad (wire [frameChatBang])
      SrcEnd.eof (by decide!) (by decide!) (by decide!) (by decide!)
  exact ⟨r, h1, h2, h3, h4.trans (by decide!)⟩

/-- Counterexample to C9: with an empty frame before the terminal frame,
`RequestChat` returns an error and the empty text; with the empty frame removed
it returns `Bon!` and a nil error. -/
theorem RequestChat_empty_frame_fails :
    decodeChat (frameLine []) = none ∧
    (RequestChat decodeChat (ok200 (wire [frameBon, [], frameChatBang]))).map
      (fun r => (r.text, r.err, sends r.trace)) =
        some ([], some ChatErr.decode, ["Bon".toList]) ∧
    (RequestChat decodeChat (ok200 (wire [frameBon, frameChatBang]))).map
      (fun r => (r.text, r.err)) = some ("Bon!".toList, none) := by
  decide!

/-- C9, amended: a frame with zero bytes before the delimiter holds no JSON
value, so decoding it fails; `RequestChat` does not skip it: when it comes
before any `done=true` frame, the frames before it decoding, `RequestChat`
returns the empty text and a decode error, having pushed the fragments of the
frames before it and read nothing after it. -/
theorem RequestChat_fails_at_empty_frame (decode : List Char → Option ChatResponse)
    (fs : List (List Char)) (rest : List Char) (e : SrcEnd)
    (hempty : decode (frameLine []) = none)
    (hfs : ∀ f ∈ fs, '\n' ∉ f)
    (hev : ∀ f ∈ fs, (decode (frameLine f)).map (fun ev => ev.Done) = some false) :
    decodeChat (frameLine []) = none ∧
    ∃ r, RequestChat decode
        (PostResult.response 200 ⟨wire fs ++ frameLine [] ++ rest, e⟩) = some r ∧
      r.err = some ChatErr.decode ∧ r.text = [] ∧
      sends r.trace = fragments (chatEvents decode fs) ∧
      reads r.trace = (fs ++ [[]]).map frameLine :=
  ⟨by decide!, RequestChat_malformed decode fs [] rest e hfs (by simp) hev hempty⟩

/-- Witness of C9, amended: an empty frame after one valid frame. -/
theorem RequestChat_fails_at_empty_frame_witness :
    ∃ r, RequestChat decodeChat
        (ok200 (wire [frameBon] ++ frameLine [] ++ wire [frameChatBang])) = some r ∧
      r.err = some ChatErr.decode ∧ r.text = [] ∧ sends r.trace = ["Bon".toList] := by
  obtain ⟨_, r, h1, h2, h3, h4, _⟩ :=
    RequestChat_fails_at_empty_frame decodeChat [frameBon] (wire [frameChatBang])
      SrcEnd.eof (by decide!) (by decide!) (by decide!)
  exact ⟨r, h1, h2, h3, h4.trans (by decide!)⟩

theorem chatOver_text (decode : List Char → Option ChatResponse) (e : SrcEnd)
    (fs : List (List Char)) (acc : List Char) :
    ((chatOver decode e fs acc).err ≠ none → (chatOver decode e fs acc).text = []) ∧
    ((chatOver decode e fs acc).err = none →
      (chatOver decode e fs acc).text = acc ++ (sends (chatOver decode e fs acc).trace).flatten) := by
  induction fs generalizing acc with
  | nil => cases e <;> simp [chatOver, sends]
  | cons f fs ih =>
    cases hev : decode (frameLine f) with
    | none => simp [chatOver, hev]
    | some ev =>
      by_cases hd : ev.Done = true
      · simp [chatOver, hev, hd, sends]
      · obtain ⟨h1, h2⟩ := ih (acc ++ ev.Message.Content)
        refine ⟨?_, ?_⟩
        · intro h
          simp only [chatOver, hev, hd] at h ⊢
          exact h1 h
        · intro h
          simp only [chatOver, hev, hd] at h ⊢
          simp [sends, h2 h]

/-- Counterexample to C6: after the fragments `Bon` and `jour` have been decoded
and accumulated, a malformed frame makes `RequestChat` return the error
together with the empty text, not with `Bonjour`; so does a read error. -/
theorem RequestChat_error_drops_text :
    (RequestChat decodeChat (ok200 (wire [frameBon, frameJour, frameBad]))).map
      (fun r => (r.text, r.err, sends r.trace)) =
        some ([], some ChatErr.decode, ["Bon".toList, "jour".toList]) ∧
    (RequestChat decodeChat
      (PostResult.response 200 ⟨wire [frameBon, frameJour], SrcEnd.broken⟩)).map
      (fun r => (r.text, r.err, sends r.trace)) =
        some ([], some ChatErr.read, ["Bon".toList, "jour".toList]) := by
  decide!

theorem RequestChat_error_text_empty_aux (decode : List Char → Option ChatResponse)
    (post : PostResult) :
    ∃ r, RequestChat decode post = some r ∧
      (r.err ≠ none → r.text = []) ∧
      (r.err = none → r.text = (sends r.trace).flatten) ∧
      sends r.trace = fragments ((reads r.trace).filterMap decode) := by
  cases post with
  | failed => exact ⟨_, rfl, by simp, by simp, by simp [sends, reads, fragments]⟩
  | response code body =>
    by_cases hc : code = 200
    · subst hc
      obtain ⟨buf, e⟩ := body
      obtain ⟨fs, tail, hfs, htail, hb⟩ := exists_frames buf
      obtain ⟨h1, h2⟩ := chatOver_text decode e fs []
      obtain ⟨_, h3, _⟩ := chatOver_paired decode e fs []
      exact ⟨_, by rw [hb]; exact RequestChat_wire decode e fs tail hfs htail, h1,
        by simpa using h2, h3⟩
    · exact ⟨⟨[], some (ChatErr.status code), []⟩, by simp [RequestChat, hc], by simp, by simp,
        by simp [sends, reads, fragments]⟩

/-- C6, amended: whenever `RequestChat` returns a non-nil error, the text it
returns with it is empty, whatever it has accumulated; the fragments decoded
before the failure have been pushed to the sink, in order, and are not
returned.  With a nil error the text is the concatenation of the pushes. -/
theorem RequestChat_error_text_empty (decode : List Char → Option ChatResponse)
    (post : PostResult) :
    ∃ r, RequestChat decode post = some r ∧
      (r.err ≠ none → r.text = []) ∧
      (r.err = none → r.text = (sends r.trace).flatten) ∧
      sends r.trace = fragments ((reads r.trace).filterMap decode) :=
  RequestChat_error_text_empty_aux decode post

/-! ## `Translater` -/

theorem consumer_sends_close (ts : List (List Char)) :
    Translater.consumer (ts.map ChanOp.send ++ [ChanOp.close]) = (ts.flatten, true) := by
  induction ts with
  | nil => rfl
  | cons t ts ih => simp [Translater.consumer, ih]

theorem consumer_sends (ts : List (List Char)) :
    (Translater.consumer (ts.map ChanOp.send)).2 = false := by
  induction ts with
  | nil => rfl
  | cons t ts ih => simp [Translater.consumer, ih]

/-- Counterexample to C7: when `RequestChat` fails after the push of `Bon`, the
producer's only channel operation is that push; it ends the process with
status 1 and never closes the channel, so the consumer sees no close. -/
theorem producer_fatal_skips_close :
    Translater.producer decodeChat (ok200 (wire [frameBon, frameBad])) =
      some ⟨[ChanOp.send "Bon".toList], some 1⟩ ∧
    (Translater.consumer [ChanOp.send "Bon".toList]).2 = false := by
  decide!

/-- C7, amended: when `RequestChat` returns a nil error, the producer pushes
every fragment, then closes the channel once, after the last push, and the
consumer prints the fragments in push order (the text `RequestChat` returned)
and returns on the close.  When `RequestChat` returns an error, the producer
ends the process through `log.Fatalf` with status 1 after its pushes and does
not close the channel. -/
theorem producer_closes_on_success (decode : List Char → Option ChatResponse)
    (post : PostResult) :
    ∃ r p, RequestChat decode post = some r ∧ Translater.producer decode post = some p ∧
      (r.err = none →
        p.ops = (sends r.trace).map ChanOp.send ++ [ChanOp.close] ∧ p.exit = none ∧
        Translater.consumer p.ops = (r.text, true)) ∧
      (r.err ≠ none →
        p.ops = (sends r.trace).map ChanOp.send ∧ ChanOp.close ∉ p.ops ∧ p.exit = some 1 ∧
        (Translater.consumer p.ops).2 = false) := by
  obtain ⟨r, hr, _, htext, _⟩ := RequestChat_error_text_empty_aux decode post
  cases herr : r.err with
  | none =>
    refine ⟨r, ⟨(sends r.trace).map ChanOp.send ++ [ChanOp.close], none⟩, hr,
      by simp [Translater.producer, hr, herr], ?_, by simp [herr]⟩
    intro _
    exact ⟨rfl, rfl, by rw [consumer_sends_close, htext herr]⟩
  | some err =>
    refine ⟨r, ⟨(sends r.trace).map ChanOp.send, some 1⟩, hr,
      by simp [Translater.producer, hr, herr], by simp [herr], ?_⟩
    intro _
    exact ⟨rfl, by simp, rfl, consumer_sends _⟩

/-! ## Runs of the generate loop over frames -/

theorem generateOver_prints (decode : List Char → Option Message)
    (summary : List Char → Message → List Char) (e : SrcEnd) (fs : List (List Char)) :
    (generateOver decode summary false e fs).stdout =
      (responses (uptoDone (fun ev => ev.Done) (messageEvents decode fs))).flatten ∧
    (generateOver decode summary false e fs).skipped =
      (malformed decode (uptoDone (isTerminal decode) fs)).map frameLine := by
  induction fs with
  | nil => cases e <;> exact ⟨rfl, rfl⟩
  | cons f fs ih =>
    obtain ⟨h1, h2⟩ := ih
    simp only [messageEvents] at h1
    cases hev : decode (frameLine f) with
    | none =>
      simp [generateOver, messageEvents, hev, h1, h2, uptoDone, isTerminal, malformed,
        List.filter_cons]
    | some ev =>
      by_cases hd : ev.Done = true
      · simp [generateOver, messageEvents, hev, hd, uptoDone, isTerminal, malformed, responses,
          List.filter_cons]
      · simp [generateOver, messageEvents, hev, hd, uptoDone, isTerminal, malformed, responses,
          List.filter_cons, h1, h2]

/-- C8: with the summary flag off, on a body made of newline-terminated frames,
what the generate loop of `main` prints after the header is the concatenation,
in arrival order, of the `response` field of the frames that decode, up to and
including the first one with `done=true`; a frame that does not decode is
logged and skipped, and the loop goes on with the next frame. -/
theorem main_prints_responses (decode : List Char → Option Message)
    (summary : List Char → Message → List Char) (fs : List (List Char)) (e : SrcEnd)
    (hfs : ∀ f ∈ fs, '\n' ∉ f) :
    ∃ r, main decode summary false false (PostResult.response 200 ⟨wire fs, e⟩) = some r ∧
      r.stdout = ">>>\n".toList ++
        (responses (uptoDone (fun ev => ev.Done) (messageEvents decode fs))).flatten ∧
      r.skipped = (malformed decode (uptoDone (isTerminal decode) fs)).map frameLine := by
  have hrun := main_wire decode summary false e fs [] hfs (by simp)
  rw [List.append_nil] at hrun
  obtain ⟨h1, h2⟩ := generateOver_prints decode summary e fs
  exact ⟨_, hrun, by simp [h1], h2⟩

/-- Witness of C8: the two frames of the scenario print `Hello`, the terminal
frame carrying `total_duration` 1500000000; so they do with an empty frame and
the frame `oops` between them, which are skipped, and nothing after the
terminal frame is printed. -/
theorem main_prints_responses_witness :
    (∃ r, main decodeMessage noSummary false false (ok200 (wire [frameHel, frameLo])) = some r ∧
      r.stdout = ">>>\nHello".toList ∧ r.skipped = []) ∧
    (∃ r, main decodeMessage noSummary false false
        (ok200 (wire [frameHel, [], frameBad, frameLo, frameHel])) = some r ∧
      r.stdout = ">>>\nHello".toList ∧ r.skipped = ["\n".toList, "oops\n".toList]) ∧
    decodeMessage (frameLine frameLo) =
      some { Response := "lo".toList, Done := true, TotalDuration := 1500000000 } ∧
    decodeMessage (frameLine []) = none := by
  obtain ⟨r1, h1, h2, h3⟩ :=
    main_prints_responses decodeMessage noSummary [frameHel, frameLo] SrcEnd.eof (by decide!)
  obtain ⟨r2, k1, k2, k3⟩ :=
    main_prints_responses decodeMessage noSummary [frameHel, [], frameBad, frameLo, frameHel]
      SrcEnd.eof (by decide!)
  exact ⟨⟨r1, h1, h2.trans (by decide!), h3.trans (by decide!)⟩,
    ⟨r2, k1, k2.trans (by decide!), k3.trans (by decide!)⟩, by decide!, by decide!⟩

theorem generateOver_terminal (decode : List Char → Option Message)
    (summary : List Char → Message → List Char) (flag : Bool) (e : SrcEnd)
    (fs more : List (List Char)) (term : List Char) (ev : Message)
    (hnot : ∀ f ∈ fs, isTerminal decode f = false)
    (hterm : decode (frameLine term) = some ev) (hdone : ev.Done = true) :
    generateOver decode summary flag e (fs ++ term :: more) =
      ⟨(responses (messageEvents decode fs)).flatten ++ ev.Response ++
          (if flag then summary (frameLine term) ev else []),
        (malformed decode fs).map frameLine, none⟩ := by
  induction fs with
  | nil => simp [generateOver, hterm, hdone, messageEvents, responses, malformed]
  | cons f fs ih =>
    have hf := hnot f (List.mem_cons_self _ _)
    have ih' := ih fun g hg => hnot g (List.mem_cons_of_mem _ hg)
    cases hev : decode (frameLine f) with
    | none =>
      simp [generateOver, hev, ih', messageEvents, malformed, List.filter_cons]
    | some m =>
      have hd : m.Done = false := by simpa [isTerminal, hev] using hf
      simp [generateOver, hev, hd, ih', messageEvents, malformed, responses, List.filter_cons]

/-- Counterexample to C5: with three malformed frames before its terminal frame
(`oops`, a cut-off object and an empty frame), the generate loop completes
without a fatal error: it prints `Hello` and logs the three frames. -/
theorem main_tolerates_three_malformed :
    main decodeMessage noSummary false false
        (ok200 (wire [frameBad, frameHel, frameCut, [], frameLo])) =
      some ⟨">>>\nHello".toList,
        [frameLine frameBad, frameLine frameCut, frameLine []], none⟩ := by
  decide!

/-- C5, amended: the generate loop puts no bound on the malformed frames it
tolerates.  On a body whose frames before the terminal frame are malformed or
decode with `done=false`, however many of them are malformed, the loop logs
and skips every malformed frame and completes without a fatal error, printing
the responses of the frames that decode, whatever follows the terminal frame
and however the source ends. -/
theorem main_skips_every_malformed (decode : List Char → Option Message)
    (summary : List Char → Message → List Char) (flag : Bool)
    (fs : List (List Char)) (term rest : List Char) (e : SrcEnd)
    (hfs : ∀ f ∈ fs, '\n' ∉ f) (hterm : '\n' ∉ term)
    (hnot : ∀ f ∈ fs, isTerminal decode f = false)
    (hdone : isTerminal decode term = true) :
    ∃ r ev, main decode summary flag false
        (PostResult.response 200 ⟨wire fs ++ frameLine term ++ rest, e⟩) = some r ∧
      decode (frameLine term) = some ev ∧
      r.fatal = none ∧
      r.skipped = (malformed decode fs).map frameLine ∧
      r.stdout = ">>>\n".toList ++ (responses (messageEvents decode fs)).flatten ++ ev.Response ++
        (if flag then summary (frameLine term) ev else []) := by
  obtain ⟨gs, tail, hgs, htail, hrest⟩ := exists_frames rest
  have hall : ∀ f ∈ fs ++ term :: gs, '\n' ∉ f := by
    intro f hf
    rcases List.mem_append.1 hf with h | h
    · exact hfs f h
    · rcases List.mem_cons.1 h with h | h
      · exact h ▸ hterm
      · exact hgs f h
  have hbody : wire fs ++ frameLine term ++ rest = wire (fs ++ term :: gs) ++ tail := by
    simp [wire_append, wire, hrest, List.append_assoc]
  cases hev : decode (frameLine term) with
  | none => simp [isTerminal, hev] at hdone
  | some ev =>
    have hd : ev.Done = true := by simpa [isTerminal, hev] using hdone
    have hover := generateOver_terminal decode summary flag e fs gs term ev hnot hev hd
    refine ⟨_, ev, by rw [hbody]; exact main_wire decode summary flag e _ tail hall htail, rfl,
      ?_, ?_, ?_⟩
    · rw [hover]
    · rw [hover]
    · rw [hover]; simp [List.append_assoc]

/-- Witness of C5, amended: three malformed frames before the terminal frame. -/
theorem main_skips_every_malformed_witness :
    ∃ r, main decodeMessage noSummary false false
        (ok200 (wire [frameBad, frameHel, frameCut, []] ++ frameLine frameLo ++ [])) = some r ∧
      r.fatal = none ∧
      r.skipped = [frameLine frameBad, frameLine frameCut, frameLine []] ∧
      r.stdout = ">>>\nHello".toList := by
  obtain ⟨r, ev, h1, h2, h3, h4, h5⟩ :=
    main_skips_every_malformed decodeMessage noSummary false
      [frameBad, frameHel, frameCut, []] frameLo [] SrcEnd.eof
      (by decide!) (by decide!) (by decide!) (by decide!)
  have hev : ev = { Response := "lo".toList, Done := true, TotalDuration := 1500000000 } := by
    have : decodeMessage (frameLine frameLo) =
        some { Response := "lo".toList, Done := true, TotalDuration := 1500000000 } := by
      decide!
    rw [this] at h2
    exact (Option.some.inj h2).symm
  subst hev
  exact ⟨r, h1, h3, h4.trans (by decide!), h5.trans (by decide!)⟩

/-! ## Bytes after the last delimiter -/

/-- C10: in both loops the bytes after the last newline of the body are never
decoded: the run on `b ++ s`, for `s` without newline, returns what the run on
`b` returns (text, pushes, printed output, error); a body that is one
unterminated frame gives the empty result and no error. -/
theorem trailing_bytes_never_decoded (decodeC : List Char → Option ChatResponse)
    (decodeM : List Char → Option Message) (summary : List Char → Message → List Char)
    (flag : Bool) (b s : List Char) (e : SrcEnd) (hs : '\n' ∉ s) :
    (∃ r, RequestChat decodeC (PostResult.response 200 ⟨b ++ s, e⟩) = some r ∧
      RequestChat decodeC (PostResult.response 200 ⟨b, e⟩) = some r) ∧
    (∃ r, main decodeM summary flag false (PostResult.response 200 ⟨b ++ s, e⟩) = some r ∧
      main decodeM summary flag false (PostResult.response 200 ⟨b, e⟩) = some r) ∧
    RequestChat decodeC (PostResult.response 200 ⟨s, SrcEnd.eof⟩) = some ⟨[], none, []⟩ ∧
    main decodeM summary flag false (PostResult.response 200 ⟨s, SrcEnd.eof⟩) =
      some ⟨">>>\n".toList, [], none⟩ := by
  obtain ⟨fs, tail, hfs, htail, hb⟩ := exists_frames b
  have htail' : '\n' ∉ tail ++ s := by
    simp only [List.mem_append, not_or]
    exact ⟨htail, hs⟩
  have hbs : b ++ s = wire fs ++ (tail ++ s) := by rw [hb, List.append_assoc]
  have c1 := RequestChat_wire decodeC e fs _ hfs htail'
  have c2 := RequestChat_wire decodeC e fs _ hfs htail
  have m1 := main_wire decodeM summary flag e fs _ hfs htail'
  have m2 := main_wire decodeM summary flag e fs _ hfs htail
  rw [← hbs] at c1 m1
  rw [← hb] at c2 m2
  refine ⟨⟨_, c1, c2⟩, ⟨_, m1, m2⟩, ?_, ?_⟩
  · exact RequestChat_wire decodeC SrcEnd.eof [] s (by simp) hs
  · have := main_wire decodeM summary flag SrcEnd.eof [] s (by simp) hs
    simpa [wire, generateOver] using this

/-- Witness of C10: after the frame with `Bon`, a valid terminal frame with the
fragment `!` that lacks its newline is dropped: the run returns `Bon`, a nil
error and the one push, as without those bytes. -/
theorem trailing_bytes_never_decoded_witness :
    (∃ r, RequestChat decodeChat (ok200 (wire [frameBon] ++ frameChatBang)) = some r ∧
      RequestChat decodeChat (ok200 (wire [frameBon])) = some r ∧
      r.text = "Bon".toList ∧ r.err = none ∧ sends r.trace = ["Bon".toList]) ∧
    RequestChat decodeChat (ok200 frameChatBang) = some ⟨[], none, []⟩ ∧
    main decodeMessage noSummary false false (ok200 frameLo) = some ⟨">>>\n".toList, [], none⟩ := by
  obtain ⟨⟨r, h1, h2⟩, _, h3, _⟩ :=
    trailing_bytes_never_decoded decodeChat decodeMessage noSummary false
      (wire [frameBon]) frameChatBang SrcEnd.eof (by decide!)
  obtain ⟨_, _, _, h4⟩ :=
    trailing_bytes_never_decoded decodeChat decodeMessage noSummary false
      [] frameLo SrcEnd.eof (by decide!)
  have hr : RequestChat decodeChat (ok200 (wire [frameBon])) =
      some ⟨"Bon".toList, none, [Effect.read (frameLine frameBon), Effect.send "Bon".toList]⟩ := by
    decide!
  have hrr : r = ⟨"Bon".toList, none, [Effect.read (frameLine frameBon), Effect.send "Bon".toList]⟩ :=
    Option.some.inj ((h2.symm.trans hr))
  subst hrr
  exact ⟨⟨_, h1, h2, rfl, rfl, by decide!⟩, h3, h4⟩

/-! ## Further properties -/

/-- `RequestChat` returns on every answer of `http.Post`: the bound on the
iterations of its loop is never reached. -/
theorem RequestChat_returns (decode : List Char → Option ChatResponse) (post : PostResult) :
    ∃ r, RequestChat decode post = some r := by
  obtain ⟨r, hr, _⟩ := RequestChat_error_text_empty_aux decode post
  exact ⟨r, hr⟩

theorem generateOver_fatal (decode : List Char → Option Message)
    (summary : List Char → Message → List Char) (flag : Bool) (e : SrcEnd)
    (fs : List (List Char)) :
    ((generateOver decode summary flag e fs).fatal = none ∨
      (generateOver decode summary flag e fs).fatal = some Fatal.read) ∧
    (e = SrcEnd.eof → (generateOver decode summary flag e fs).fatal = none) := by
  induction fs with
  | nil => cases e <;> simp [generateOver]
  | cons f fs ih =>
    cases hev : decode (frameLine f) with
    | none => simpa [generateOver, hev] using ih
    | some ev =>
      by_cases hd : ev.Done = true
      · simp [generateOver, hev, hd]
      · simpa [generateOver, hev, hd] using ih

/-- `main` in generate mode ends on every answer of `http.Post`, and the only
fatal errors of its stream loop are read errors: on a body that ends with
`io.EOF` it completes without one. -/
theorem main_returns (decode : List Char → Option Message)
    (summary : List Char → Message → List Char) (flag : Bool) (body : List Char) (e : SrcEnd) :
    ∃ r, main decode summary flag false (PostResult.response 200 ⟨body, e⟩) = some r ∧
      (r.fatal = none ∨ r.fatal = some Fatal.read) ∧ (e = SrcEnd.eof → r.fatal = none) := by
  obtain ⟨fs, tail, hfs, htail, hb⟩ := exists_frames body
  have hrun := main_wire decode summary flag e fs tail hfs htail
  rw [← hb] at hrun
  exact ⟨_, hrun, generateOver_fatal decode summary flag e fs⟩

/-- In the non-streaming JSON mode (`-j`), `main` prints the whole body as it
is, with no header and no decoding; a trailing newline is not needed. -/
theorem main_json_passthrough (decode : List Char → Option Message)
    (summary : List Char → Message → List Char) (flag : Bool) (body : List Char) :
    main decode summary flag true (PostResult.response 200 ⟨body, SrcEnd.eof⟩) =
      some ⟨body, [], none⟩ := by
  simp [main]

/-- A status other than 200 makes `RequestChat` return the empty text and the
status error without reading the body. -/
theorem RequestChat_non200 (decode : List Char → Option ChatResponse) (code : Nat)
    (body : Reader) (h : code ≠ 200) :
    RequestChat decode (PostResult.response code body) =
      some ⟨[], some (ChatErr.status code), []⟩ := by
  simp [RequestChat, h]

/-- Witness: status 500. -/
theorem RequestChat_non200_witness :
    RequestChat decodeChat (PostResult.response 500 ⟨wire [frameChatBang], SrcEnd.eof⟩) =
      some ⟨[], some (ChatErr.status 500), []⟩ :=
  RequestChat_non200 decodeChat 500 ⟨wire [frameChatBang], SrcEnd.eof⟩ (by decide)

end OllamaLearn
